import Mathlib

/-!
Shallow embedding of check_verification_status.py, the verification-status
reporting script of this repository.  Lines of a scanned file are modelled as
List Char (one list per line, as produced by readlines, sans newline
handling: the script never matches across line ends).  Python regular
expression searches are modelled as executable recursive scanners with
leftmost-match semantics; each definition carries a note tying it to the
source lines it embeds.
-/

/-- Python whitespace test for the ASCII range: the characters matched by
the regex class backslash-s and stripped by str.strip on the inputs this
script handles (space, tab, newline, carriage return, vertical tab, form
feed). -/
def pyIsWs (c : Char) : Bool :=
  c = ' ' || c = '\t' || c = '\n' || c = '\r' || c = Char.ofNat 11 || c = Char.ofNat 12

/-- Drop leading whitespace, as the greedy regex fragment backslash-s-star
does when followed by a non-whitespace literal. -/
def dropWs (s : List Char) : List Char := s.dropWhile pyIsWs

/-- Drop trailing whitespace. -/
def pyStripTrail (s : List Char) : List Char := (s.reverse.dropWhile pyIsWs).reverse

/-- Python str.strip(): remove leading and trailing whitespace. -/
def pyStrip (s : List Char) : List Char := pyStripTrail (dropWs s)

/-- Python regex word character (ASCII fragment of backslash-w). -/
def isWordChar (c : Char) : Bool :=
  ('a' ≤ c && c ≤ 'z') || ('A' ≤ c && c ≤ 'Z') || ('0' ≤ c && c ≤ '9') || c = '_'

/-- Match a literal pattern (given in lowercase) case-insensitively at the
head of the input; return the remainder on success.  Models a literal
regex fragment under re.IGNORECASE. -/
def matchCI : List Char → List Char → Option (List Char)
  | [], s => some s
  | _ :: _, [] => none
  | p :: ps, c :: cs => if c.toLower = p then matchCI ps cs else none

/-- Attempt to match the status-comment regex at the start of the input:
two slashes, optional whitespace, the keyword status (case-insensitive),
optional whitespace, a colon, optional whitespace, then the captured free
text running to the end of the line; the capture is returned stripped, as
the source does with match.group(1).strip().  When the text after the
colon is nonempty but all whitespace, the regex of the source still
matches (the final dot-plus backtracks into the whitespace) and the
stripped capture is empty.  Embeds the regex at line 138 of
check_verification_status.py. -/
def statusAt (s : List Char) : Option (List Char) :=
  match s with
  | c1 :: c2 :: rest =>
    if c1 = '/' ∧ c2 = '/' then
      match matchCI ("status".data) (dropWs rest) with
      | none => none
      | some r2 =>
        match dropWs r2 with
        | c :: r3 =>
          if c = ':' then
            let cap := dropWs r3
            if cap.isEmpty then (if r3.isEmpty then none else some []) else some (pyStrip cap)
          else none
        | [] => none
    else none
  | _ => none

/-- Leftmost-match search of the status-comment regex over a whole line:
try every start position from the left and return the first successful
match, as re.search does. -/
def statusSearch : List Char → Option (List Char)
  | [] => none
  | c :: t =>
    match statusAt (c :: t) with
    | some v => some v
    | none => statusSearch t

/-- Attempt to match the function-definition regex at the start of the
input: the keyword fn, at least one whitespace character, then a captured
run of word characters.  The optional pub-plus-whitespace prefix of the
source regex at lines 147 and 162 never changes whether a match exists
nor the captured identifier (any match taking the pub branch contains
this fn-anchored match with the same capture, and the two branches can
never both fire at one position), so it is elided. -/
def fnNameAt (s : List Char) : Option (List Char) :=
  match s with
  | c1 :: c2 :: rest =>
    if c1 = 'f' ∧ c2 = 'n' then
      match rest with
      | [] => none
      | c3 :: _ =>
        if pyIsWs c3 then
          let nm := (rest.dropWhile pyIsWs).takeWhile isWordChar
          if nm.isEmpty then none else some nm
        else none
    else none
  | _ => none

/-- Leftmost-match search of the function-definition regex over a line. -/
def fnSearch : List Char → Option (List Char)
  | [] => none
  | c :: t =>
    match fnNameAt (c :: t) with
    | some v => some v
    | none => fnSearch t

/-- extract_function_name (lines 156-165 of the source): the captured
identifier of the leftmost function-definition match on the line, if any. -/
def extractFunctionName (line : List Char) : Option (List Char) := fnSearch line

/-- Python substring containment (the in operator on strings): the
pattern occurs as a contiguous segment of the text. -/
def hasSubstr (p : List Char) : List Char → Bool
  | [] => p.isEmpty
  | c :: t => p.isPrefixOf (c :: t) || hasSubstr p t

/-- The boundary test of the backward status search (line 147 of the
source), applied to an already stripped line: the line contains the exact
marker literal, or the function-definition regex matches somewhere in it. -/
def backwardBoundary (line : List Char) : Bool :=
  hasSubstr ("#[rule]".data) line || (extractFunctionName line).isSome

/-- The forward loop of extract_status_comment (lines 131-140): visit
fuel consecutive line indices starting at k, return the first status
capture on a stripped line.  Fuel-counted recursion mirrors the Python
for loop over a range. -/
def fwdScan (lines : List (List Char)) : Nat → Nat → Option (List Char)
  | _, 0 => none
  | k, fuel + 1 =>
    match statusSearch (pyStrip (lines.getD k [])) with
    | some s => some s
    | none => fwdScan lines (k + 1) fuel

/-- The backward loop of extract_status_comment (lines 144-151): visit
fuel consecutive line indices downward starting at k; stop without
matching on a boundary line, otherwise return the first status capture. -/
def backScan (lines : List (List Char)) : Nat → Nat → Option (List Char)
  | _, 0 => none
  | k, fuel + 1 =>
    let line := pyStrip (lines.getD k [])
    if backwardBoundary line then none
    else
      match statusSearch line with
      | some s => some s
      | none => backScan lines (k - 1) fuel

/-- Phase 1 of extract_status_comment: indices strictly after the marker
index i, strictly below the minimum of i+15, the function line index j
and the line count. -/
def forwardStatus (lines : List (List Char)) (i j : Nat) : Option (List Char) :=
  fwdScan lines (i + 1) (min (i + 15) (min j lines.length) - (i + 1))

/-- Phase 2 of extract_status_comment: indices i-1 down to max(0, i-10),
that is min i 10 iterations, with the boundary break. -/
def backwardStatus (lines : List (List Char)) (i : Nat) : Option (List Char) :=
  backScan lines (i - 1) (min i 10)

/-- extract_status_comment (lines 121-153 of the source): forward phase
preferred, backward phase only on forward failure. -/
def extractStatusComment (lines : List (List Char)) (i j : Nat) : Option (List Char) :=
  match forwardStatus lines i j with
  | some s => some s
  | none => backwardStatus lines i

/-- The marker test of analyze_file (line 181 of the source), verbatim:
the line contains the exact marker literal, or the space-stripped line
contains the spaced marker literal.  Python str.replace of a space by the
empty string is List.filter keeping non-space characters. -/
def markerLine (line : List Char) : Bool :=
  hasSubstr ("#[rule]".data) line ||
    hasSubstr ("#[ rule ]".data) (line.filter (fun c => !(c = ' ')))

/-- The function lookahead loop of analyze_file (lines 187-191): visit
fuel consecutive indices starting at k and return the first index whose
line yields a function name, with that name. -/
def funcScan (lines : List (List Char)) : Nat → Nat → Option (Nat × List Char)
  | _, 0 => none
  | k, fuel + 1 =>
    match extractFunctionName (lines.getD k []) with
    | some nm => some (k, nm)
    | none => funcScan lines (k + 1) fuel

/-- The function search for a marker at index i: indices in the Python
range from i+1 to min(i+15, number of lines), exclusive. -/
def findFunc (lines : List (List Char)) (i : Nat) : Option (Nat × List Char) :=
  funcScan lines (i + 1) (min (i + 15) lines.length - (i + 1))

/-- One rule record, as built at line 200 of the source: function name,
resolved status text (or none), and the 1-based marker line number. -/
structure RuleInfo where
  name : List Char
  status : Option (List Char)
  line_num : Nat
deriving DecidableEq

/-- The body of the per-line marker handling in analyze_file (lines
179-201): a marker line yields a rule when a function is found in the
lookahead window and its name does not end in the sanity suffix. -/
def ruleAt (lines : List (List Char)) (i : Nat) : Option RuleInfo :=
  if markerLine (lines.getD i []) then
    match findFunc lines i with
    | some (j, nm) =>
      if ("_sanity".data).isSuffixOf nm then none
      else some ⟨nm, extractStatusComment lines i j, i + 1⟩
    | none => none
  else none

/-- analyze_file restricted to its observable output: the rule list of
the returned FileAnalysis, in line order. -/
def analyzeRules (lines : List (List Char)) : List RuleInfo :=
  (List.range lines.length).filterMap (ruleAt lines)

/-- RuleInfo._check_verified (lines 68-74): the status, lowercased then
stripped, starts with the verified literal. -/
def isVerifiedStatus : Option (List Char) → Bool
  | none => false
  | some s => ("verified".data).isPrefixOf (pyStrip (s.map Char.toLower))

/-- RuleInfo._check_if_bug (lines 76-81): the status, lowercased then
stripped, starts with the bug literal. -/
def isBugStatus : Option (List Char) → Bool
  | none => false
  | some s => ("bug".data).isPrefixOf (pyStrip (s.map Char.toLower))

/-- The four counters of FileAnalysis. -/
structure Counts where
  total : Nat
  verified : Nat
  unverified : Nat
  bug : Nat
deriving DecidableEq

/-- FileAnalysis.add_rule (lines 93-102 of the source): total always
increments; verified increments on a verified status; unverified
increments when the status is neither verified nor bug; bug increments on
a bug status. -/
def addRule (c : Counts) (st : Option (List Char)) : Counts :=
  { total := c.total + 1
    verified := c.verified + (if isVerifiedStatus st then 1 else 0)
    unverified :=
      c.unverified + (if ¬ (isVerifiedStatus st = true) ∧ ¬ (isBugStatus st = true) then 1 else 0)
    bug := c.bug + (if isBugStatus st then 1 else 0) }

/-- The counts of a FileAnalysis after all add_rule calls for its rules. -/
def fileCounts (rules : List RuleInfo) : Counts :=
  rules.foldl (fun c r => addRule c r.status) ⟨0, 0, 0, 0⟩

/-- Componentwise sum of counts, as done by the aggregation sums of
format_table and format_json. -/
def addCounts (a b : Counts) : Counts :=
  ⟨a.total + b.total, a.verified + b.verified, a.unverified + b.unverified, a.bug + b.bug⟩

/-- One analysed file: its path, modelled as the resolved absolute path
split into segments (pathlib resolution is taken as given, so segment
lists are canonical), and its rule list. -/
structure FileAnalysis where
  file_path : List String
  rules : List RuleInfo
deriving DecidableEq

/-- The directory aggregation of format_table (lines 312-319) and
format_json (lines 374-382), parametric in the directory-key function:
files with at least one rule contribute their counts to the aggregate of
their key. -/
def dirTotals (key : FileAnalysis → List Char) (k : List Char) (as : List FileAnalysis) : Counts :=
  as.foldl
    (fun acc a =>
      if (fileCounts a.rules).total > 0 ∧ key a = k then addCounts acc (fileCounts a.rules)
      else acc)
    ⟨0, 0, 0, 0⟩

/-- The project-wide sums of format_table (lines 290-293): componentwise
sums over every analysis. -/
def projectTotal (as : List FileAnalysis) : Counts :=
  as.foldl (fun acc a => addCounts acc (fileCounts a.rules)) ⟨0, 0, 0, 0⟩

/-- The three outcome kinds of a rule. -/
inductive Outcome
  | verified
  | bug
  | unverified
deriving DecidableEq

/-- The outcome a status induces through add_rule, testing verified
first as the source does. -/
def outcomeOf (st : Option (List Char)) : Outcome :=
  if isVerifiedStatus st then .verified
  else if isBugStatus st then .bug
  else .unverified

/-- The packages-segment stripping of get_relative_path (lines 226-229 of
the source), on the root-relative path string. -/
def stripPackages (s : List Char) : List Char :=
  if ("packages/".data).isPrefixOf s then s.drop 9 else s

/-- filter_analyses_by_path (lines 235-272 of the source), with the
filesystem abstracted to two oracles on resolved segment paths: a
nonexistent target yields the empty list; a file target keeps exact path
matches; a directory target keeps paths having the target as a segment
prefix, which is what pathlib relative_to succeeds on for resolved
absolute paths. -/
def filterAnalysesByPath (fsExists fsIsFile : List String → Bool)
    (as : List FileAnalysis) (filterPath : List String) : List FileAnalysis :=
  if fsExists filterPath then
    if fsIsFile filterPath then as.filter (fun a => a.file_path = filterPath)
    else as.filter (fun a => filterPath.isPrefixOf a.file_path)
  else []

/-! ### Helper lemmas -/

/-- A successful Boolean prefix test yields an append decomposition. -/
theorem prefixOf_ex : ∀ (p s : List Char), p.isPrefixOf s = true → ∃ t, p ++ t = s
  | [], s, _ => ⟨s, rfl⟩
  | _ :: _, [], h => by simp [List.isPrefixOf] at h
  | a :: as, b :: bs, h => by
    simp only [List.isPrefixOf, Bool.and_eq_true, beq_iff_eq] at h
    obtain ⟨rfl, h2⟩ := h
    obtain ⟨t, ht⟩ := prefixOf_ex as bs h2
    exact ⟨t, by rw [List.cons_append, ht]⟩

/-- A list is a Boolean prefix of itself followed by anything. -/
theorem prefixOf_append : ∀ (p t : List Char), p.isPrefixOf (p ++ t) = true
  | [], _ => by simp [List.isPrefixOf]
  | a :: as, t => by simp [List.isPrefixOf, prefixOf_append as t]

/-- Characters of a contained segment are characters of the text. -/
theorem hasSubstr_mem {p s : List Char} {c : Char} (h : hasSubstr p s = true) (hc : c ∈ p) :
    c ∈ s := by
  induction s with
  | nil =>
    simp only [hasSubstr, List.isEmpty_iff] at h
    rw [h] at hc
    exact absurd hc (List.not_mem_nil c)
  | cons a t ih =>
    simp only [hasSubstr, Bool.or_eq_true] at h
    rcases h with h | h
    · obtain ⟨r, hr⟩ := prefixOf_ex _ _ h
      rw [← hr]
      exact List.mem_append_left r hc
    · exact List.mem_cons_of_mem a (ih h)

/-- The whitespace-tolerant disjunct of the marker test at line 181 of the
source is unsatisfiable: the spaced literal contains a space, while the
space-stripped line contains none. -/
theorem spaced_marker_dead (line : List Char) :
    hasSubstr ("#[ rule ]".data) (line.filter (fun c => !(c = ' '))) = false := by
  cases h : hasSubstr ("#[ rule ]".data) (line.filter (fun c => !(c = ' '))) with
  | false => rfl
  | true =>
    have hm : ' ' ∈ ("#[ rule ]".data) := by decide
    have hmem := hasSubstr_mem h hm
    simp [List.mem_filter] at hmem

/-- The marker test of the scanner collapses to the exact-literal test. -/
theorem markerLine_eq_exact (line : List Char) :
    markerLine line = hasSubstr ("#[rule]".data) line := by
  unfold markerLine
  rw [spaced_marker_dead line]
  exact Bool.or_false _

/-- A status cannot start with the verified literal and the bug literal at
once, after the same lowercasing and stripping. -/
theorem verified_bug_exclusive (st : Option (List Char)) :
    ¬ (isVerifiedStatus st = true ∧ isBugStatus st = true) := by
  rintro ⟨hv, hb⟩
  cases st with
  | none => simp [isVerifiedStatus] at hv
  | some s =>
    simp only [isVerifiedStatus] at hv
    simp only [isBugStatus] at hb
    obtain ⟨r1, e1⟩ := prefixOf_ex _ _ hv
    obtain ⟨r2, e2⟩ := prefixOf_ex _ _ hb
    rw [← e1] at e2
    simp only [List.cons_append, List.nil_append] at e2
    injection e2 with h1 _
    exact absurd h1 (by decide)

/-- Adding one rule preserves the conservation equation of the counters. -/
theorem addRule_conserv (c : Counts) (st : Option (List Char))
    (h : c.total = c.verified + c.unverified + c.bug) :
    (addRule c st).total = (addRule c st).verified + (addRule c st).unverified + (addRule c st).bug := by
  have hex := verified_bug_exclusive st
  cases hv : isVerifiedStatus st with
  | true =>
    have hb : isBugStatus st = false := by
      cases hb : isBugStatus st with
      | false => rfl
      | true => exact absurd ⟨hv, hb⟩ hex
    simp [addRule, hv, hb]
    omega
  | false =>
    cases hb : isBugStatus st with
    | true => simp [addRule, hv, hb]; omega
    | false => simp [addRule, hv, hb]; omega

/-- Folding add_rule from a conserving accumulator conserves. -/
theorem foldl_addRule_conserv (rs : List RuleInfo) :
    ∀ (c : Counts), c.total = c.verified + c.unverified + c.bug →
      (rs.foldl (fun c r => addRule c r.status) c).total
        = (rs.foldl (fun c r => addRule c r.status) c).verified
          + (rs.foldl (fun c r => addRule c r.status) c).unverified
          + (rs.foldl (fun c r => addRule c r.status) c).bug := by
  induction rs with
  | nil => intro c h; simpa using h
  | cons r rs ih => intro c h; exact ih _ (addRule_conserv c r.status h)

/-- The counts of any rule list conserve. -/
theorem fileCounts_conserv (rs : List RuleInfo) :
    (fileCounts rs).total = (fileCounts rs).verified + (fileCounts rs).unverified + (fileCounts rs).bug :=
  foldl_addRule_conserv rs ⟨0, 0, 0, 0⟩ rfl

/-- Componentwise count sums preserve conservation. -/
theorem addCounts_conserv {a b : Counts}
    (ha : a.total = a.verified + a.unverified + a.bug)
    (hb : b.total = b.verified + b.unverified + b.bug) :
    (addCounts a b).total = (addCounts a b).verified + (addCounts a b).unverified + (addCounts a b).bug := by
  simp [addCounts]
  omega

/-- The directory aggregation fold preserves conservation from any
conserving accumulator. -/
theorem dirTotals_fold_conserv (key : FileAnalysis → List Char) (k : List Char)
    (as : List FileAnalysis) :
    ∀ (c : Counts), c.total = c.verified + c.unverified + c.bug →
      (as.foldl
          (fun acc a =>
            if (fileCounts a.rules).total > 0 ∧ key a = k then addCounts acc (fileCounts a.rules)
            else acc)
          c).total
        = (as.foldl
            (fun acc a =>
              if (fileCounts a.rules).total > 0 ∧ key a = k then addCounts acc (fileCounts a.rules)
              else acc)
            c).verified
          + (as.foldl
              (fun acc a =>
                if (fileCounts a.rules).total > 0 ∧ key a = k then addCounts acc (fileCounts a.rules)
                else acc)
              c).unverified
          + (as.foldl
              (fun acc a =>
                if (fileCounts a.rules).total > 0 ∧ key a = k then addCounts acc (fileCounts a.rules)
                else acc)
              c).bug := by
  induction as with
  | nil => intro c h; simpa using h
  | cons a as ih =>
    intro c h
    by_cases hc : (fileCounts a.rules).total > 0 ∧ key a = k
    · simp only [List.foldl_cons, if_pos hc]
      exact ih _ (addCounts_conserv h (fileCounts_conserv a.rules))
    · simp only [List.foldl_cons, if_neg hc]
      exact ih _ h

/-- The project-total fold preserves conservation from any conserving
accumulator. -/
theorem projectTotal_fold_conserv (as : List FileAnalysis) :
    ∀ (c : Counts), c.total = c.verified + c.unverified + c.bug →
      (as.foldl (fun acc a => addCounts acc (fileCounts a.rules)) c).total
        = (as.foldl (fun acc a => addCounts acc (fileCounts a.rules)) c).verified
          + (as.foldl (fun acc a => addCounts acc (fileCounts a.rules)) c).unverified
          + (as.foldl (fun acc a => addCounts acc (fileCounts a.rules)) c).bug := by
  induction as with
  | nil => intro c h; simpa using h
  | cons a as ih =>
    intro c h
    exact ih _ (addCounts_conserv h (fileCounts_conserv a.rules))

/-! ### Claim theorems -/

/-- Claim C1: the total count equals the sum of the verified, unverified
and bug counts for every file analysis, for every directory aggregate and
for the project total, and each add_rule call adds one to the total and
one to exactly one of the three outcome counts. -/
theorem c1_conservation :
    (∀ rules : List RuleInfo,
        (fileCounts rules).total
          = (fileCounts rules).verified + (fileCounts rules).unverified + (fileCounts rules).bug) ∧
    (∀ (key : FileAnalysis → List Char) (k : List Char) (as : List FileAnalysis),
        (dirTotals key k as).total
          = (dirTotals key k as).verified + (dirTotals key k as).unverified
            + (dirTotals key k as).bug) ∧
    (∀ as : List FileAnalysis,
        (projectTotal as).total
          = (projectTotal as).verified + (projectTotal as).unverified + (projectTotal as).bug) ∧
    (∀ (c : Counts) (st : Option (List Char)),
        (addRule c st).total = c.total + 1 ∧
        (addRule c st).verified + (addRule c st).unverified + (addRule c st).bug
          = c.verified + c.unverified + c.bug + 1) := by
  refine ⟨fileCounts_conserv, ?_, ?_, ?_⟩
  · intro key k as
    exact dirTotals_fold_conserv key k as ⟨0, 0, 0, 0⟩ rfl
  · intro as
    exact projectTotal_fold_conserv as ⟨0, 0, 0, 0⟩ rfl
  · intro c st
    have hex := verified_bug_exclusive st
    cases hv : isVerifiedStatus st with
    | true =>
      have hb : isBugStatus st = false := by
        cases hb : isBugStatus st with
        | false => rfl
        | true => exact absurd ⟨hv, hb⟩ hex
      constructor
      · rfl
      · simp [addRule, hv, hb]
        omega
    | false =>
      cases hb : isBugStatus st with
      | true => exact ⟨rfl, by simp [addRule, hv, hb]; omega⟩
      | false => exact ⟨rfl, by simp [addRule, hv, hb]; omega⟩

/-- Claim C4: the outcome induced by add_rule is bug exactly when the
status text, lowercased and stripped, starts with the bug literal; it is
verified exactly when it is not bug and the text starts with the verified
literal; an absent status and a status that strips to the empty string
are unverified; and add_rule counts exactly the outcome so induced. -/
theorem c4_outcome_classification :
    (∀ st : Option (List Char), outcomeOf st = Outcome.bug ↔ isBugStatus st = true) ∧
    (∀ st : Option (List Char),
        outcomeOf st = Outcome.verified
          ↔ (isBugStatus st = false ∧ isVerifiedStatus st = true)) ∧
    (outcomeOf none = Outcome.unverified) ∧
    (∀ s : List Char, pyStrip (s.map Char.toLower) = [] → outcomeOf (some s) = Outcome.unverified) ∧
    (∀ (c : Counts) (st : Option (List Char)),
        addRule c st
          = ⟨c.total + 1,
             c.verified + (if outcomeOf st = Outcome.verified then 1 else 0),
             c.unverified + (if outcomeOf st = Outcome.unverified then 1 else 0),
             c.bug + (if outcomeOf st = Outcome.bug then 1 else 0)⟩) := by
  have hiff1 : ∀ st : Option (List Char), outcomeOf st = Outcome.bug ↔ isBugStatus st = true := by
    intro st
    have hex := verified_bug_exclusive st
    cases hv : isVerifiedStatus st with
    | true =>
      have hb : isBugStatus st = false := by
        cases hb : isBugStatus st with
        | false => rfl
        | true => exact absurd ⟨hv, hb⟩ hex
      simp [outcomeOf, hv, hb]
    | false => cases hb : isBugStatus st with
      | true => simp [outcomeOf, hv, hb]
      | false => simp [outcomeOf, hv, hb]
  have hiff2 : ∀ st : Option (List Char),
      outcomeOf st = Outcome.verified ↔ (isBugStatus st = false ∧ isVerifiedStatus st = true) := by
    intro st
    have hex := verified_bug_exclusive st
    cases hv : isVerifiedStatus st with
    | true =>
      have hb : isBugStatus st = false := by
        cases hb : isBugStatus st with
        | false => rfl
        | true => exact absurd ⟨hv, hb⟩ hex
      simp [outcomeOf, hv, hb]
    | false => cases hb : isBugStatus st with
      | true => simp [outcomeOf, hv, hb]
      | false => simp [outcomeOf, hv, hb]
  refine ⟨hiff1, hiff2, by simp [outcomeOf, isVerifiedStatus, isBugStatus], ?_, ?_⟩
  · intro s h
    have hv : isVerifiedStatus (some s) = false := by
      simp only [isVerifiedStatus, h]
      decide
    have hb : isBugStatus (some s) = false := by
      simp only [isBugStatus, h]
      decide
    simp [outcomeOf, hv, hb]
  · intro c st
    have hex := verified_bug_exclusive st
    cases hv : isVerifiedStatus st with
    | true =>
      have hb : isBugStatus st = false := by
        cases hb : isBugStatus st with
        | false => rfl
        | true => exact absurd ⟨hv, hb⟩ hex
      simp [addRule, outcomeOf, hv, hb]
    | false => cases hb : isBugStatus st with
      | true => simp [addRule, outcomeOf, hv, hb]
      | false => simp [addRule, outcomeOf, hv, hb]

/-- Claim C4 witness: a concrete bug status classifies as bug, and a
whitespace-only status classifies as unverified. -/
theorem c4_outcome_classification_witness :
    outcomeOf (some ("  Bug: overflow".data)) = Outcome.bug ∧
    (pyStrip (("   ".data).map Char.toLower) = [] ∧
      outcomeOf (some ("   ".data)) = Outcome.unverified) := by
  refine ⟨(c4_outcome_classification.1 _).mpr (by decide), by decide,
    c4_outcome_classification.2.2.2.1 ("   ".data) (by decide)⟩

/-- Claim C5: the whitespace-tolerant disjunct of the marker test never
fires on any line, so the spaced marker spelling is not recognized and a
file consisting of a spaced marker followed by a function yields no rule,
contrary to the stated tolerance of spaced-out marker spellings. -/
theorem c5_spaced_marker_never_matches :
    (∀ line : List Char,
        hasSubstr ("#[ rule ]".data) (line.filter (fun c => !(c = ' '))) = false) ∧
    markerLine ("#[ rule ]".data) = false ∧
    analyzeRules [("#[ rule ]".data), ("fn foo()".data)] = [] :=
  ⟨spaced_marker_dead, by decide, by decide⟩

/-- The forward loop returns the first status match inside its range. -/
theorem fwdScan_first (lines : List (List Char)) (s : List Char) :
    ∀ (fuel a k : Nat), a ≤ k → k < a + fuel →
      statusSearch (pyStrip (lines.getD k [])) = some s →
      (∀ m, a ≤ m → m < k → statusSearch (pyStrip (lines.getD m [])) = none) →
      fwdScan lines a fuel = some s
  | 0, a, k, h1, h2, _, _ => absurd h2 (by omega)
  | fuel + 1, a, k, h1, h2, hk, hfirst => by
    rcases Nat.eq_or_lt_of_le h1 with heq | hlt
    · subst heq
      simp only [fwdScan, hk]
    · have ha : statusSearch (pyStrip (lines.getD a [])) = none :=
        hfirst a (Nat.le_refl a) hlt
      simp only [fwdScan, ha]
      exact fwdScan_first lines s fuel (a + 1) k hlt (by omega) hk
        (fun m hm1 hm2 => hfirst m (by omega) hm2)

/-- The backward loop returns nothing when a boundary line sits at or
below the scan start with no status match strictly between it and the
start, regardless of what lies beyond the boundary. -/
theorem backScan_blocked (lines : List (List Char)) (b : Nat) :
    ∀ (fuel k : Nat), b ≤ k →
      backwardBoundary (pyStrip (lines.getD b [])) = true →
      (∀ m, b < m → m ≤ k → statusSearch (pyStrip (lines.getD m [])) = none) →
      backScan lines k fuel = none
  | 0, _, _, _, _ => rfl
  | fuel + 1, k, hbk, hb, hclean => by
    by_cases hbound : backwardBoundary (pyStrip (lines.getD k [])) = true
    · simp only [backScan, hbound]
      rfl
    · have hkb : b < k := by
        rcases Nat.eq_or_lt_of_le hbk with heq | hlt
        · subst heq
          exact absurd hb hbound
        · exact hlt
      have hst : statusSearch (pyStrip (lines.getD k [])) = none :=
        hclean k hkb (Nat.le_refl k)
      have hbound' : backwardBoundary (pyStrip (lines.getD k [])) = false := by
        cases hB : backwardBoundary (pyStrip (lines.getD k [])) with
        | false => rfl
        | true => exact absurd hB hbound
      simp only [backScan, hbound', hst, Bool.false_eq_true, if_false]
      exact backScan_blocked lines b fuel (k - 1) (by omega) hb
        (fun m hm1 hm2 => hclean m hm1 (by omega))

/-- The function lookahead returns an index inside its range, bearing the
first function match of the range. -/
theorem funcScan_bound (lines : List (List Char)) :
    ∀ (fuel a j : Nat) (nm : List Char), funcScan lines a fuel = some (j, nm) →
      a ≤ j ∧ j < a + fuel ∧ extractFunctionName (lines.getD j []) = some nm ∧
        (∀ m, a ≤ m → m < j → extractFunctionName (lines.getD m []) = none)
  | 0, a, j, nm => by
    intro h
    simp [funcScan] at h
  | fuel + 1, a, j, nm => by
    intro h
    cases he : extractFunctionName (lines.getD a []) with
    | some v =>
      simp only [funcScan, he, Option.some.injEq, Prod.mk.injEq] at h
      obtain ⟨h1, h2⟩ := h
      subst h1
      subst h2
      exact ⟨Nat.le_refl _, by omega, he, fun m hm1 hm2 => absurd (Nat.lt_of_le_of_lt hm1 hm2) (by omega)⟩
    | none =>
      simp only [funcScan, he] at h
      obtain ⟨h1, h2, h3, h4⟩ := funcScan_bound lines fuel (a + 1) j nm h
      refine ⟨by omega, by omega, h3, ?_⟩
      intro m hm1 hm2
      rcases Nat.eq_or_lt_of_le hm1 with heq | hlt
      · subst heq
        exact he
      · exact h4 m (by omega) hm2

/-- The function lookahead returns nothing when no line of its range
matches. -/
theorem funcScan_none (lines : List (List Char)) :
    ∀ (fuel a : Nat),
      (∀ m, a ≤ m → m < a + fuel → extractFunctionName (lines.getD m []) = none) →
      funcScan lines a fuel = none
  | 0, _, _ => rfl
  | fuel + 1, a, h => by
    have ha : extractFunctionName (lines.getD a []) = none := h a (Nat.le_refl a) (by omega)
    simp only [funcScan, ha]
    exact funcScan_none lines fuel (a + 1) (fun m hm1 hm2 => h m (by omega) (by omega))

/-- Claim C2: when the scanner has attached a function line to a marker,
any first status comment strictly between marker and function line is the
resolved status, and the backward phase is never consulted. -/
theorem c2_forward_preference :
    ∀ (lines : List (List Char)) (i j k : Nat) (nm s : List Char),
      findFunc lines i = some (j, nm) →
      i < k → k < j →
      statusSearch (pyStrip (lines.getD k [])) = some s →
      (∀ m, i < m → m < k → statusSearch (pyStrip (lines.getD m [])) = none) →
      extractStatusComment lines i j = some s := by
  intro lines i j k nm s hf hik hkj hk hfirst
  obtain ⟨h1, h2, _, _⟩ := funcScan_bound lines _ _ _ _ hf
  have hmin1 : min (i + 15) lines.length ≤ i + 15 := Nat.min_le_left _ _
  have hmin2 : min (i + 15) lines.length ≤ lines.length := Nat.min_le_right _ _
  have hjlen : j < lines.length := by omega
  have hj14 : j ≤ i + 14 := by omega
  have hfwd : forwardStatus lines i j = some s := by
    unfold forwardStatus
    have hmin : min (i + 15) (min j lines.length) = j := by omega
    rw [hmin]
    exact fwdScan_first lines s (j - (i + 1)) (i + 1) k (by omega) (by omega) hk
      (fun m hm1 hm2 => hfirst m (by omega) hm2)
  unfold extractStatusComment
  rw [hfwd]

/-- Claim C2 witness: a marker at index 3 with a status comment at index
5, before its function line at index 6, resolves forward to that comment
even though a bug status stands at index 0. -/
theorem c2_forward_preference_witness :
    extractStatusComment
      [("// status: bug".data), ("".data), ("".data), ("#[rule]".data), ("".data),
        ("// status: verified".data), ("fn foo()".data)] 3 6
      = some ("verified".data) :=
  c2_forward_preference _ 3 6 5 ("foo".data) _ (by decide) (by decide) (by decide) (by decide)
    (by
      intro m h1 h2
      have hm : m = 4 := by omega
      subst hm
      decide)

/-- Claim C3: the marker test of the scanner coincides with the exact
marker-literal containment the backward boundary checks, and the
backward phase halts without matching at any boundary line, so a marker
whose only nearby status comment lies beyond a boundary, with no forward
match, resolves to an absent status. -/
theorem c3_backward_boundary_halt :
    (∀ line : List Char, markerLine line = hasSubstr ("#[rule]".data) line) ∧
    (∀ (lines : List (List Char)) (i j b : Nat),
        forwardStatus lines i j = none →
        b < i →
        backwardBoundary (pyStrip (lines.getD b [])) = true →
        (∀ m, b < m → m < i → statusSearch (pyStrip (lines.getD m [])) = none) →
        extractStatusComment lines i j = none) := by
  constructor
  · exact markerLine_eq_exact
  · intro lines i j b hfwd hbi hb hclean
    unfold extractStatusComment
    rw [hfwd]
    unfold backwardStatus
    exact backScan_blocked lines b (min i 10) (i - 1) (by omega) hb
      (fun m hm1 hm2 => hclean m hm1 (by omega))

/-- Claim C3 witness: the second marker of a two-rule file, with no
forward status, does not pick up the status comment that lies beyond the
function line of the first rule. -/
theorem c3_backward_boundary_halt_witness :
    extractStatusComment
      [("// status: bug".data), ("#[rule]".data), ("fn first_rule()".data), ("end".data),
        ("#[rule]".data), ("// comment".data), ("fn second_rule()".data)] 4 6
      = none :=
  c3_backward_boundary_halt.2 _ 4 6 2 (by decide) (by decide) (by decide)
    (by
      intro m h1 h2
      have hm : m = 3 := by omega
      subst hm
      decide)

/-- Claim C6 counterexample: a marker at index 0 whose nearest following
function definition lies exactly at the 15th line after it yields no
rule, because the lookahead stops after the 14th line. -/
theorem c6_counterexample_fifteenth_line :
    analyzeRules
      [("#[rule]".data), ("// a".data), ("// b".data), ("// c".data), ("// d".data),
        ("// e".data), ("// f".data), ("// g".data), ("// h".data), ("// i".data),
        ("// j".data), ("// k".data), ("// l".data), ("// m".data), ("// n".data),
        ("fn foo()".data)] = [] := by
  decide

/-- Claim C6 amended: the lookahead for the decorated function examines
the 14 lines after the marker, or fewer at end-of-file; a function found
there lies at most 14 lines after the marker; a marker with no function
match in that window yields no rule; and a function exactly at the 14th
line after the marker still yields a rule. -/
theorem c6_lookahead_window_amended :
    (∀ (lines : List (List Char)) (i j : Nat) (nm : List Char),
        findFunc lines i = some (j, nm) → i + 1 ≤ j ∧ j ≤ i + 14 ∧ j < lines.length) ∧
    (∀ (lines : List (List Char)) (i : Nat),
        (∀ m, i + 1 ≤ m → m < min (i + 15) lines.length →
          extractFunctionName (lines.getD m []) = none) →
        ruleAt lines i = none) ∧
    analyzeRules
      [("#[rule]".data), ("// a".data), ("// b".data), ("// c".data), ("// d".data),
        ("// e".data), ("// f".data), ("// g".data), ("// h".data), ("// i".data),
        ("// j".data), ("// k".data), ("// l".data), ("// m".data),
        ("fn foo()".data)] = [⟨("foo".data), none, 1⟩] := by
  refine ⟨?_, ?_, by decide⟩
  · intro lines i j nm hf
    obtain ⟨h1, h2, _, _⟩ := funcScan_bound lines _ _ _ _ hf
    have hmin1 : min (i + 15) lines.length ≤ i + 15 := Nat.min_le_left _ _
    have hmin2 : min (i + 15) lines.length ≤ lines.length := Nat.min_le_right _ _
    omega
  · intro lines i h
    have hff : findFunc lines i = none := by
      unfold findFunc
      refine funcScan_none lines _ _ ?_
      intro m hm1 hm2
      refine h m hm1 ?_
      omega
    unfold ruleAt
    rw [hff]
    split
    · rfl
    · rfl

/-- Claim C6 amended witness: the marker of the counterexample file, with
no function match in its lookahead window, yields no rule. -/
theorem c6_lookahead_window_amended_witness :
    ruleAt
      [("#[rule]".data), ("// a".data), ("// b".data), ("// c".data), ("// d".data),
        ("// e".data), ("// f".data), ("// g".data), ("// h".data), ("// i".data),
        ("// j".data), ("// k".data), ("// l".data), ("// m".data), ("// n".data),
        ("fn foo()".data)] 0 = none :=
  c6_lookahead_window_amended.2.1 _ 0
    (by
      intro m h1 h2
      have h3 : m < 15 := by
        simp at h2
        omega
      interval_cases m <;> decide)

/-- Claim C10: a leading line-comment introducer does not shield a line
from the function-definition search; the function attached to a marker is
the first line of the window matching the function pattern, wherever on
the line it occurs; and a comment line mentioning the fn keyword becomes
the function line of the rule, with the commented identifier as the rule
name. -/
theorem c10_fn_pattern_in_comments :
    (∀ line : List Char, extractFunctionName ('/' :: '/' :: line) = extractFunctionName line) ∧
    (∀ (lines : List (List Char)) (i j : Nat) (nm : List Char),
        findFunc lines i = some (j, nm) →
        extractFunctionName (lines.getD j []) = some nm ∧
          ∀ m, i + 1 ≤ m → m < j → extractFunctionName (lines.getD m []) = none) ∧
    analyzeRules
      [("#[rule]".data), ("// uses fn helper internally".data), ("// status: verified".data),
        ("fn real_rule()".data)] = [⟨("helper".data), none, 1⟩] := by
  refine ⟨?_, ?_, by decide⟩
  · intro line
    cases line with
    | nil => rfl
    | cons c t => rfl
  · intro lines i j nm hf
    obtain ⟨_, _, h3, h4⟩ := funcScan_bound lines _ _ _ _ hf
    exact ⟨h3, h4⟩

/-- Claim C10 witness: the comment line of the concrete file carries the
function match the scanner attaches to the marker. -/
theorem c10_fn_pattern_in_comments_witness :
    extractFunctionName (("// uses fn helper internally".data)) = some ("helper".data) :=
  (c10_fn_pattern_in_comments.2.1
    [("#[rule]".data), ("// uses fn helper internally".data), ("// status: verified".data),
      ("fn real_rule()".data)] 0 1 ("helper".data) (by decide)).1

/-- A successful case-insensitive literal match splits the input into the
consumed spelling and the remainder. -/
theorem matchCI_some_ex : ∀ (pat s r : List Char), matchCI pat s = some r →
    ∃ kw, s = kw ++ r ∧ kw.map Char.toLower = pat
  | [], s, r, h => by
    simp only [matchCI, Option.some.injEq] at h
    exact ⟨[], by simp [h], rfl⟩
  | p :: ps, [], r, h => Option.noConfusion h
  | p :: ps, c :: cs, r, h => by
    by_cases hc : c.toLower = p
    · simp only [matchCI, hc, if_pos] at h
      obtain ⟨kw, hs, hm⟩ := matchCI_some_ex ps cs r h
      exact ⟨c :: kw, by rw [List.cons_append, ← hs], by rw [List.map_cons, hm, hc]⟩
    · simp only [matchCI, hc, if_neg, if_false] at h
      exact Option.noConfusion h

/-- A case-insensitive literal consumes exactly a spelling that lowers to
it, leaving the tail. -/
theorem matchCI_of_map : ∀ (kw r : List Char), matchCI (kw.map Char.toLower) (kw ++ r) = some r
  | [], r => rfl
  | c :: kw, r => by
    simp [matchCI, matchCI_of_map kw r]

/-- A character lowering to the letter s is not whitespace. -/
theorem not_ws_of_toLower_s {c : Char} (h : c.toLower = 's') : pyIsWs c = false := by
  cases hb : pyIsWs c with
  | false => rfl
  | true =>
    exfalso
    simp only [pyIsWs, Bool.or_eq_true, decide_eq_true_eq] at hb
    rcases hb with ((((h1 | h1) | h1) | h1) | h1) | h1 <;> subst h1 <;> exact absurd h (by decide)

/-- Evaluation of the position matcher past its introducer test. -/
theorem statusAt_eval (rest : List Char) :
    statusAt ('/' :: '/' :: rest) =
      match matchCI ("status".data) (dropWs rest) with
      | none => none
      | some r2 =>
        match dropWs r2 with
        | c :: r3 =>
          if c = ':' then
            if (dropWs r3).isEmpty then (if r3.isEmpty then none else some [])
            else some (pyStrip (dropWs r3))
          else none
        | [] => none := rfl

/-- Boolean negation of a truth hypothesis. -/
theorem bool_eq_false {b : Bool} (h : ¬ b = true) : b = false := by
  cases b with
  | false => rfl
  | true => exact absurd rfl h

/-- A position starts a status match exactly when it carries the
double-slash introducer, optional whitespace, the keyword status in any
letter case, optional whitespace, a colon and a nonempty remainder. -/
theorem statusAt_isSome_iff (s : List Char) :
    (statusAt s).isSome = true ↔
      ∃ w1 kw w2 t : List Char,
        s = '/' :: '/' :: (w1 ++ (kw ++ (w2 ++ ':' :: t))) ∧
        (∀ c ∈ w1, pyIsWs c = true) ∧ kw.map Char.toLower = ("status".data) ∧
        (∀ c ∈ w2, pyIsWs c = true) ∧ ¬ t = [] := by
  constructor
  · intro h
    cases s with
    | nil => exact Bool.noConfusion h
    | cons c1 s1 =>
      cases s1 with
      | nil => exact Bool.noConfusion h
      | cons c2 rest =>
        by_cases hc : c1 = '/' ∧ c2 = '/'
        · obtain ⟨rfl, rfl⟩ := hc
          cases hm : matchCI ("status".data) (dropWs rest) with
          | none => simp [statusAt, hm] at h
          | some r2 =>
            obtain ⟨kw, hkw, hmap⟩ := matchCI_some_ex _ _ _ hm
            cases hd : dropWs r2 with
            | nil => simp [statusAt, hm, hd] at h
            | cons cc r3 =>
              by_cases hcolon : cc = ':'
              · subst hcolon
                have ht : ¬ r3 = [] := by
                  intro h0
                  subst h0
                  simp only [statusAt_eval, hm, hd] at h
                  simp [dropWs] at h
                refine ⟨rest.takeWhile pyIsWs, kw, r2.takeWhile pyIsWs, r3, ?_, ?_, hmap, ?_, ht⟩
                · have e1 : rest.takeWhile pyIsWs ++ dropWs rest = rest :=
                    List.takeWhile_append_dropWhile pyIsWs rest
                  have e2 : r2.takeWhile pyIsWs ++ dropWs r2 = r2 :=
                    List.takeWhile_append_dropWhile pyIsWs r2
                  rw [hd] at e2
                  rw [hkw, ← e2] at e1
                  rw [e1]
                · intro c hcmem
                  exact List.mem_takeWhile_imp hcmem
                · intro c hcmem
                  exact List.mem_takeWhile_imp hcmem
              · simp [statusAt, hm, hd, hcolon] at h
        · simp [statusAt, hc] at h
  · rintro ⟨w1, kw, w2, t, rfl, h1, hmap, h2, ht⟩
    cases kw with
    | nil => exact absurd hmap (by decide)
    | cons k kw' =>
      have hk : k.toLower = 's' := by
        rw [List.map_cons] at hmap
        injection hmap with h3 _
      have hkws : pyIsWs k = false := not_ws_of_toLower_s hk
      have e1 : dropWs (w1 ++ ((k :: kw') ++ (w2 ++ ':' :: t))) = (k :: kw') ++ (w2 ++ ':' :: t) := by
        show (w1 ++ ((k :: kw') ++ (w2 ++ ':' :: t))).dropWhile pyIsWs = (k :: kw') ++ (w2 ++ ':' :: t)
        rw [List.dropWhile_append_of_pos h1, List.cons_append,
          List.dropWhile_cons_of_neg (by rw [hkws]; exact Bool.false_ne_true)]
      have e2 : matchCI ("status".data) ((k :: kw') ++ (w2 ++ ':' :: t)) = some (w2 ++ ':' :: t) := by
        rw [← hmap]
        exact matchCI_of_map (k :: kw') (w2 ++ ':' :: t)
      have e3 : dropWs (w2 ++ ':' :: t) = ':' :: t := by
        show (w2 ++ ':' :: t).dropWhile pyIsWs = ':' :: t
        rw [List.dropWhile_append_of_pos h2,
          List.dropWhile_cons_of_neg (by decide)]
      cases t with
      | nil => exact absurd rfl ht
      | cons a b =>
        simp only [statusAt_eval, e1, e2, e3]
        cases hcap : (dropWs (a :: b)).isEmpty <;> simp [hcap]

/-- The leftmost search succeeds exactly when a status match starts at
some position of the line. -/
theorem statusSearch_isSome_iff :
    ∀ line : List Char,
      (statusSearch line).isSome = true ↔ ∃ l r, line = l ++ r ∧ (statusAt r).isSome = true
  | [] => by
    constructor
    · intro h
      exact absurd h (by decide)
    · rintro ⟨l, r, hlr, hr⟩
      obtain ⟨-, rfl⟩ := List.append_eq_nil.mp hlr.symm
      exact absurd hr (by decide)
  | c :: t => by
    constructor
    · intro h
      cases hA : statusAt (c :: t) with
      | some w => exact ⟨[], c :: t, rfl, by rw [hA]; rfl⟩
      | none =>
        have h' : (statusSearch t).isSome = true := by
          simp only [statusSearch, hA] at h
          exact h
        obtain ⟨l, r, hlr, hr⟩ := (statusSearch_isSome_iff t).mp h'
        exact ⟨c :: l, r, by rw [List.cons_append, ← hlr], hr⟩
    · rintro ⟨l, r, hlr, hr⟩
      cases hA : statusAt (c :: t) with
      | some w => simp [statusSearch, hA]
      | none =>
        cases l with
        | nil =>
          simp only [List.nil_append] at hlr
          subst hlr
          rw [hA] at hr
          exact absurd hr (by decide)
        | cons x l' =>
          rw [List.cons_append] at hlr
          injection hlr with hx hlt
          simp only [statusSearch, hA]
          exact (statusSearch_isSome_iff t).mpr ⟨l', r, hlt, hr⟩

/-- A fully whitespace-dropped list strips to the empty list. -/
theorem pyStrip_nil_of_dropWs (t : List Char) (h : dropWs t = []) : pyStrip t = [] := by
  rw [pyStrip, h]
  rfl

/-- Dropping a satisfied prefix twice is dropping it once. -/
theorem dropWhile_idem (p : Char → Bool) (l : List Char) :
    (l.dropWhile p).dropWhile p = l.dropWhile p := by
  induction l with
  | nil => rfl
  | cons c t ih =>
    by_cases h : p c = true
    · rw [List.dropWhile_cons_of_pos h]
      exact ih
    · rw [List.dropWhile_cons_of_neg h, List.dropWhile_cons_of_neg h]

/-- Stripping is unchanged by first dropping leading whitespace. -/
theorem pyStrip_dropWs (t : List Char) : pyStrip (dropWs t) = pyStrip t := by
  show pyStripTrail (dropWs (dropWs t)) = pyStripTrail (dropWs t)
  rw [show dropWs (dropWs t) = dropWs t from dropWhile_idem pyIsWs t]

/-- A comment-introduced status line followed by any tail with visible
content captures exactly the stripped tail. -/
theorem statusSearch_capture (t : List Char) (ht : ¬ pyStrip t = []) :
    statusSearch (("// status: ".data) ++ t) = some (pyStrip t) := by
  show statusSearch ('/' :: '/' :: ' ' :: 's' :: 't' :: 'a' :: 't' :: 'u' :: 's' :: ':' :: ' ' :: t)
      = some (pyStrip t)
  cases hd : dropWs t with
  | nil => exact absurd (pyStrip_nil_of_dropWs t hd) ht
  | cons c cs =>
    have h2 : pyStrip (dropWs t) = pyStrip t := pyStrip_dropWs t
    rw [hd] at h2
    have hA : statusAt ('/' :: '/' :: ' ' :: 's' :: 't' :: 'a' :: 't' :: 'u' :: 's' :: ':' :: ' ' :: t)
        = some (pyStrip t) := by
      show (if (dropWs t).isEmpty = true then some ([] : List Char) else some (pyStrip (dropWs t)))
          = some (pyStrip t)
      rw [hd]
      simp [h2]
    simp only [statusSearch, hA]

/-- Claim C7 counterexample: a line carrying the keyword status, a colon
and free text, but no comment introducer, is inside the forward search
range of a marker and is nevertheless not captured, so the rule resolves
to an absent status. -/
theorem c7_counterexample_bare_status :
    statusSearch (pyStrip ("status: verified".data)) = none ∧
    extractStatusComment [("#[rule]".data), ("status: verified".data), ("fn foo()".data)] 0 2
      = none ∧
    analyzeRules [("#[rule]".data), ("status: verified".data), ("fn foo()".data)]
      = [⟨("foo".data), none, 1⟩] := by
  exact ⟨by decide, by decide, by decide⟩

/-- Claim C7 amended: a line is captured exactly when it contains, at
some position and after arbitrary preceding text, the double-slash
introducer followed by optional whitespace, the keyword status in any
letter case, optional whitespace, a colon and a nonempty remainder; and
the canonical introducer-keyword-colon spelling followed by a tail with
visible content captures the stripped tail. -/
theorem c7_comment_style_amended :
    (∀ line : List Char,
        (statusSearch line).isSome = true ↔
          ∃ l w1 kw w2 t : List Char,
            line = l ++ ('/' :: '/' :: (w1 ++ (kw ++ (w2 ++ ':' :: t)))) ∧
            (∀ c ∈ w1, pyIsWs c = true) ∧ kw.map Char.toLower = ("status".data) ∧
            (∀ c ∈ w2, pyIsWs c = true) ∧ ¬ t = []) ∧
    (∀ t : List Char, ¬ pyStrip t = [] →
        statusSearch (("// status: ".data) ++ t) = some (pyStrip t)) := by
  constructor
  · intro line
    rw [statusSearch_isSome_iff line]
    constructor
    · rintro ⟨l, r, rfl, hr⟩
      obtain ⟨w1, kw, w2, t, rfl, h1, hm, h2, ht⟩ := (statusAt_isSome_iff r).mp hr
      exact ⟨l, w1, kw, w2, t, rfl, h1, hm, h2, ht⟩
    · rintro ⟨l, w1, kw, w2, t, rfl, h1, hm, h2, ht⟩
      exact ⟨l, _, rfl, (statusAt_isSome_iff _).mpr ⟨w1, kw, w2, t, rfl, h1, hm, h2, ht⟩⟩
  · exact statusSearch_capture

/-- Claim C7 amended witness: a doc-comment spelling with three slashes
and a compressed spelling with no whitespace are both captured, and the
canonical spelling captures its stripped text. -/
theorem c7_comment_style_amended_witness :
    (statusSearch ("/// status: x".data)).isSome = true ∧
    (statusSearch ("//status:x".data)).isSome = true ∧
    statusSearch (("// status: ".data) ++ ("ok  ".data)) = some (pyStrip ("ok  ".data)) :=
  ⟨(c7_comment_style_amended.1 ("/// status: x".data)).mpr
      ⟨("/".data), (" ".data), ("status".data), ([] : List Char), (" x".data),
        by decide, by decide, by decide, by decide, by decide⟩,
    (c7_comment_style_amended.1 ("//status:x".data)).mpr
      ⟨([] : List Char), ([] : List Char), ("status".data), ([] : List Char), ("x".data),
        by decide, by decide, by decide, by decide, by decide⟩,
    c7_comment_style_amended.2 ("ok  ".data) (by decide)⟩

/-- Claim C8 counterexample: two distinct root-relative directory paths
collide to one directory key after the packages-segment is stripped. -/
theorem c8_counterexample_packages_collision :
    ¬ ("packages/foo/specs".data) = ("foo/specs".data) ∧
    stripPackages ("packages/foo/specs".data) = stripPackages ("foo/specs".data) :=
  ⟨by decide, by decide⟩

/-- Claim C8 amended: after the packages stripping, two directory keys
collide exactly when the two distinct root-relative directory paths are
such that one is literally the packages segment followed by the other
and that other does not itself start with the packages segment; every
other pair of distinct directories keeps distinct keys. -/
theorem c8_key_distinctness_amended :
    ∀ d1 d2 : List Char,
      (stripPackages d1 = stripPackages d2 ∧ ¬ d1 = d2) ↔
        ((d1 = ("packages/".data) ++ d2 ∧ ("packages/".data).isPrefixOf d2 = false) ∨
          (d2 = ("packages/".data) ++ d1 ∧ ("packages/".data).isPrefixOf d1 = false)) := by
  intro d1 d2
  constructor
  · rintro ⟨h, hne⟩
    unfold stripPackages at h
    by_cases h1 : ("packages/".data).isPrefixOf d1 = true
    · obtain ⟨t1, e1⟩ := prefixOf_ex _ _ h1
      by_cases h2 : ("packages/".data).isPrefixOf d2 = true
      · obtain ⟨t2, e2⟩ := prefixOf_ex _ _ h2
        rw [if_pos h1, if_pos h2, ← e1, ← e2] at h
        rw [List.drop_left' (by decide), List.drop_left' (by decide)] at h
        subst h
        rw [← e1] at hne
        rw [← e2] at hne
        exact absurd rfl hne
      · rw [if_pos h1, if_neg h2, ← e1, List.drop_left' (by decide)] at h
        subst h
        exact Or.inl ⟨e1.symm, bool_eq_false h2⟩
    · by_cases h2 : ("packages/".data).isPrefixOf d2 = true
      · obtain ⟨t2, e2⟩ := prefixOf_ex _ _ h2
        rw [if_neg h1, if_pos h2, ← e2, List.drop_left' (by decide)] at h
        subst h
        exact Or.inr ⟨e2.symm, bool_eq_false h1⟩
      · rw [if_neg h1, if_neg h2] at h
        exact absurd h hne
  · rintro (⟨rfl, hp⟩ | ⟨rfl, hp⟩)
    · constructor
      · unfold stripPackages
        rw [if_pos (prefixOf_append _ _), if_neg (by simp [hp]), List.drop_left' (by decide)]
      · intro heq
        have hlen := congrArg List.length heq
        simp [List.length_append] at hlen
        omega
    · constructor
      · unfold stripPackages
        rw [if_pos (prefixOf_append _ _), if_neg (by simp [hp]), List.drop_left' (by decide)]
      · intro heq
        have hlen := congrArg List.length heq
        simp [List.length_append] at hlen
        omega

/-- Claim C8 amended witness: the colliding pair of the counterexample
realizes the characterized collision shape. -/
theorem c8_key_distinctness_amended_witness :
    stripPackages ("packages/foo/specs".data) = stripPackages ("foo/specs".data) ∧
    ¬ ("packages/foo/specs".data) = ("foo/specs".data) :=
  (c8_key_distinctness_amended ("packages/foo/specs".data) ("foo/specs".data)).mpr
    (Or.inl ⟨by decide, by decide⟩)

/-- Claim C9: a nonexistent filter target yields the empty set; a
directory target keeps exactly the analyses whose resolved segment path
has the target as a hierarchical prefix; and a sibling directory sharing
only a string prefix with the target is excluded from a concrete run. -/
theorem c9_path_filter_subtree :
    (∀ (fsE fsF : List String → Bool) (as : List FileAnalysis) (p : List String),
        fsE p = false → filterAnalysesByPath fsE fsF as p = []) ∧
    (∀ (fsE fsF : List String → Bool) (as : List FileAnalysis) (p : List String)
        (a : FileAnalysis),
        fsE p = true → fsF p = false →
        (a ∈ filterAnalysesByPath fsE fsF as p ↔ a ∈ as ∧ p.isPrefixOf a.file_path = true)) ∧
    (filterAnalysesByPath (fun _ => true) (fun _ => false)
        [⟨["r", "specs", "a.rs"], []⟩, ⟨["r", "specs_old", "b.rs"], []⟩,
          ⟨["r", "specs", "sub", "c.rs"], []⟩]
        ["r", "specs"]
      = [⟨["r", "specs", "a.rs"], []⟩, ⟨["r", "specs", "sub", "c.rs"], []⟩]) := by
  refine ⟨?_, ?_, by decide⟩
  · intro fsE fsF as p h
    simp [filterAnalysesByPath, h]
  · intro fsE fsF as p a hE hF
    simp [filterAnalysesByPath, hE, hF, List.mem_filter]

/-- Claim C9 witness: a target that does not exist filters every analysis
away. -/
theorem c9_path_filter_subtree_witness :
    filterAnalysesByPath (fun _ => false) (fun _ => false)
      [⟨["r", "specs", "a.rs"], []⟩] ["r", "gone"] = [] :=
  c9_path_filter_subtree.1 (fun _ => false) (fun _ => false)
    [⟨["r", "specs", "a.rs"], []⟩] ["r", "gone"] rfl
